import Mathlib

/-!
Verification of the Beans-Bank ledger core against its design description.

The Go services are shallowly embedded as pure functions over an explicit
`BankState`.  Accounts are keyed by username (a unique index in the schema;
the numeric row ids are in one-to-one correspondence with usernames, so user
references are modelled by username directly).  Database transactions
(`db.Transaction`) are embedded as `Except`-returning functions: an `.ok`
result is the committed state, an `.error` result commits nothing (rollback).
Wall-clock time is passed explicitly as a `Nat` parameter where the code calls
`time.Now()`, and external cryptographic primitives (HMAC-SHA256, JSON
marshalling, JWT parsing) are taken as abstract function parameters.
-/

namespace BeansBank

/-- `models.User` (src/internal/models/user.go): unique `Username` and the
integer `BeanAmount`.  The optional email and gorm bookkeeping columns play no
role in any claim and are omitted. -/
structure Account where
  username : String
  beanAmount : Int
  deriving Repr, DecidableEq

/-- `models.Transaction` (src/internal/models/transaction.go), with the user
references resolved to usernames.  The `note` column is referenced by
`CompleteHarvest` and the export service. -/
structure LedgerEntry where
  fromUser : String
  toUser : String
  amount : Int
  note : String
  deriving Repr, DecidableEq

/-- `models.GiftLink` (src/unnamed/part_005), with `FromUserID` / `RedeemedByID`
resolved to usernames. -/
structure GiftLink where
  id : Nat
  code : String
  fromUser : String
  amount : Int
  message : String
  expiresAt : Option Nat
  redeemedAt : Option Nat
  redeemedBy : Option String
  active : Bool
  deriving Repr, DecidableEq

/-- `models.Harvest` (src/internal/models/harvest.go), with `AssignedUserID`
resolved to a username. -/
structure Harvest where
  id : Nat
  title : String
  description : String
  beanAmount : Int
  assignedUser : Option String
  completed : Bool
  deriving Repr, DecidableEq

/-- `models.APIToken` (src/internal/models/harvest.go, second section): the
signed token string, its owner and the store-side expiry. -/
structure APIToken where
  token : String
  username : String
  expiresAt : Nat
  deriving Repr, DecidableEq

/-- `services.TokenClaims` (src/internal/services/token_service.go). -/
structure TokenClaims where
  username : String
  deriving Repr, DecidableEq

/-- The durable ledger store: the `users`, `transactions`, `gift_links` and
`harvests` tables.  Rows appear in insertion order. -/
structure BankState where
  accounts : List Account
  ledger : List LedgerEntry
  giftLinks : List GiftLink
  harvests : List Harvest
  deriving Repr, DecidableEq

/-- The typed domain errors declared across the services, plus `storeError`
for paths where the Go code propagates a raw store error. -/
inductive Err where
  | invalidAmount
  | selfTransfer
  | userNotFound
  | insufficientBalance
  | recipientNotFound
  | insufficientBalanceForGift
  | giftLinkNotFound
  | giftLinkRedeemed
  | giftLinkInactive
  | giftLinkExpired
  | cannotRedeemOwnLink
  | notLinkOwner
  | harvestNotFound
  | harvestAlreadyCompleted
  | noAssignedUser
  | invalidToken
  | expiredToken
  | invalidExport
  | storeError
  deriving Repr, DecidableEq

/-- `UserRepository.FindByUsername` / `FindByUsernameForUpdate`:
`WHERE username = ? ... First`. -/
def findAcc : List Account → String → Option Account
  | [], _ => none
  | a :: rest, u => if a.username = u then some a else findAcc rest u

/-- `UserRepository.UpdateInTx` (`tx.Save`): write back the row keyed by
username with the new balance. -/
def setBal : List Account → String → Int → List Account
  | [], _, _ => []
  | a :: rest, u, b =>
      (if a.username = u then { a with beanAmount := b } else a) :: setBal rest u b

/-- `UserRepository.GetTotalBeans`: `SUM(bean_amount)` over all accounts. -/
def sumBal (accs : List Account) : Int :=
  (accs.map Account.beanAmount).sum

/-- Total supply of the ledger state. -/
def totalBeans (s : BankState) : Int :=
  sumBal s.accounts

/-- The usernames column. -/
def users (accs : List Account) : List String :=
  accs.map Account.username

/-- `HarvestRepository.FindByID` / `FindByIDForUpdate`. -/
def findHarvest : List Harvest → Nat → Option Harvest
  | [], _ => none
  | h :: rest, hid => if h.id = hid then some h else findHarvest rest hid

/-- `HarvestRepository.UpdateInTx` (`tx.Save`): write back the row keyed by id. -/
def saveHarvest : List Harvest → Harvest → List Harvest
  | [], _ => []
  | x :: rest, h => (if x.id = h.id then h else x) :: saveHarvest rest h

/-- `GiftLinkRepository.FindByCode` / `FindByCodeForUpdate`. -/
def findGiftByCode : List GiftLink → String → Option GiftLink
  | [], _ => none
  | g :: rest, c => if g.code = c then some g else findGiftByCode rest c

/-- `GiftLinkRepository.FindByID`. -/
def findGiftByID : List GiftLink → Nat → Option GiftLink
  | [], _ => none
  | g :: rest, gid => if g.id = gid then some g else findGiftByID rest gid

/-- `GiftLinkRepository.UpdateInTx` (`tx.Save`): write back the row keyed by id. -/
def saveGift : List GiftLink → GiftLink → List GiftLink
  | [], _ => []
  | x :: rest, g => (if x.id = g.id then g else x) :: saveGift rest g

/-- Well-formedness guaranteed by the unique indexes and primary
keys: usernames, gift-link ids, gift-link codes and harvest ids are distinct. -/
def WF (s : BankState) : Prop :=
  (users s.accounts).Nodup ∧ (s.giftLinks.map GiftLink.id).Nodup ∧
    (s.giftLinks.map GiftLink.code).Nodup ∧ (s.harvests.map Harvest.id).Nodup

instance (s : BankState) : Decidable (WF s) := by
  unfold WF; infer_instance

/-- The transaction body of `TransferService.Transfer`
(src/unnamed/part_003 lines 41-90): lock and read the sender (error
`userNotFound` if absent), check the balance, lock and read the recipient
(creating it with balance 0 when absent and `force` is set, else error
`recipientNotFound`), debit, credit, save both rows and append one ledger
entry. -/
def transferTx (s : BankState) (fromUsername toUsername : String) (amount : Int)
    (force : Bool) : Except Err BankState :=
  match findAcc s.accounts fromUsername with
  | none => .error .userNotFound
  | some fromUser =>
    if fromUser.beanAmount < amount then .error .insufficientBalance
    else
      match findAcc s.accounts toUsername with
      | none =>
        if !force then .error .recipientNotFound
        else
          let accs := s.accounts ++ [⟨toUsername, 0⟩]
          let accs := setBal accs fromUsername (fromUser.beanAmount - amount)
          let accs := setBal accs toUsername (0 + amount)
          .ok { s with accounts := accs,
                       ledger := s.ledger ++ [⟨fromUsername, toUsername, amount, ""⟩] }
      | some toUser =>
          let accs := setBal s.accounts fromUsername (fromUser.beanAmount - amount)
          let accs := setBal accs toUsername (toUser.beanAmount + amount)
          .ok { s with accounts := accs,
                       ledger := s.ledger ++ [⟨fromUsername, toUsername, amount, ""⟩] }

/-- `TransferService.Transfer` (src/unnamed/part_003 lines 32-91): validate
the amount and non-self-transfer, then run the transfer transaction. -/
def Transfer (s : BankState) (fromUsername toUsername : String) (amount : Int)
    (force : Bool) : Except Err BankState :=
  if amount ≤ 0 then .error .invalidAmount
  else if fromUsername = toUsername then .error .selfTransfer
  else transferTx s fromUsername toUsername amount force

/-- The ledger state observable after a `Transfer` call: `db.Transaction`
commits the result on success and rolls everything back on error. -/
def transferRun (s : BankState) (fromUsername toUsername : String) (amount : Int)
    (force : Bool) : BankState :=
  match Transfer s fromUsername toUsername amount force with
  | .ok s1 => s1
  | .error _ => s

/-- Modelled from the spec: `TransferService.TransferInTx` is called by the
gift-link service for escrow, redemption and refund, but its definition is not
among the provided source files (only its call sites are).  Spec section 4.2:
the transfer primitive "must be reusable transactionally (callable with an
already-open transaction context)" — the same validations and
debit/credit/log effects as `Transfer`, applied within the transaction of the caller. -/
def TransferInTx (s : BankState) (fromUsername toUsername : String) (amount : Int)
    (force : Bool) : Except Err BankState :=
  if amount ≤ 0 then .error .invalidAmount
  else if fromUsername = toUsername then .error .selfTransfer
  else transferTx s fromUsername toUsername amount force

/-- `WalletService.GetOrCreateWallet` (src/internal/services/wallet_service.go
lines 26-44): return the existing account, or create one holding the 1-bean
starting bonus. -/
def GetOrCreateWallet (s : BankState) (username : String) : Account × BankState :=
  match findAcc s.accounts username with
  | some user => (user, s)
  | none =>
      let user : Account := ⟨username, 1⟩
      (user, { s with accounts := s.accounts ++ [user] })

/-- `WalletService.UpdateBalance` (src/internal/services/wallet_service.go
lines 65-76): administrative override writing `newAmount` directly, with no
log entry and no sign check. -/
def UpdateBalance (s : BankState) (username : String) (newAmount : Int) :
    Except Err BankState :=
  match findAcc s.accounts username with
  | none => .error .userNotFound
  | some _ => .ok { s with accounts := setBal s.accounts username newAmount }

/-- `HarvestService.CreateHarvest` (src/internal/services/export_service.go,
second section, lines 185-199): insert a new, uncompleted, unassigned harvest.
The reward is not validated here; its only caller binds `min=1`
(src/unnamed/part_007 line 23). -/
def CreateHarvest (s : BankState) (newID : Nat) (title description : String)
    (beanAmount : Int) : Harvest × BankState :=
  let harvest : Harvest := ⟨newID, title, description, beanAmount, none, false⟩
  (harvest, { s with harvests := s.harvests ++ [harvest] })

/-- `HarvestService.AssignUser` resolved by username
(`AssignUserByUsername`, same file lines 219-252): bind an existing account to
the harvest, last assignment wins. -/
def AssignUser (s : BankState) (harvestID : Nat) (username : String) :
    Except Err BankState :=
  match findAcc s.accounts username with
  | none => .error .userNotFound
  | some _ =>
    match findHarvest s.harvests harvestID with
    | none => .error .storeError
    | some harvest =>
        .ok { s with harvests := saveHarvest s.harvests { harvest with assignedUser := some username } }

/-- The find-or-create step of `CompleteHarvest`
(src/internal/services/export_service.go, second section, lines 288-303): look
up the `system` account and, if the row does not exist, create it with
balance 0. -/
def ensureSystem (accs : List Account) : List Account :=
  match findAcc accs "system" with
  | some _ => accs
  | none => accs ++ [⟨"system", 0⟩]

/-- `HarvestService.CompleteHarvest` (src/internal/services/export_service.go,
second section, lines 254-331): lock the harvest row, guard the completed flag
and the assignee, lock and credit the assigned account by the reward, find or
create the `system` account (with balance 0), append the `system` → assignee
ledger entry with the descriptive note, and mark the harvest completed. -/
def CompleteHarvest (s : BankState) (harvestID : Nat) : Except Err BankState :=
  match findHarvest s.harvests harvestID with
  | none => .error .harvestNotFound
  | some harvest =>
    if harvest.completed then .error .harvestAlreadyCompleted
    else
      match harvest.assignedUser with
      | none => .error .noAssignedUser
      | some assignedName =>
        match findAcc s.accounts assignedName with
        | none => .error .storeError
        | some assignedUser =>
          let accs := ensureSystem
            (setBal s.accounts assignedName (assignedUser.beanAmount + harvest.beanAmount))
          let entry : LedgerEntry :=
            ⟨"system", assignedName, harvest.beanAmount, "Harvest completed: " ++ harvest.title⟩
          .ok { s with accounts := accs,
                       ledger := s.ledger ++ [entry],
                       harvests := saveHarvest s.harvests { harvest with completed := true } }

/-- The ledger state observable after a `CompleteHarvest` call (transactional
rollback on error). -/
def completeHarvestRun (s : BankState) (harvestID : Nat) : BankState :=
  match CompleteHarvest s harvestID with
  | .ok s1 => s1
  | .error _ => s

/-- `GiftLinkService.parseExpiry` (src/internal/services/transfer_service_test.go,
second section, lines 182-203), with durations in seconds from `now`;
unrecognized values fall back to no expiry. -/
def parseExpiry (now : Nat) (expiresIn : String) : Option Nat :=
  if expiresIn = "" ∨ expiresIn = "never" then none
  else if expiresIn = "1h" then some (now + 3600)
  else if expiresIn = "24h" then some (now + 86400)
  else if expiresIn = "7d" then some (now + 604800)
  else if expiresIn = "30d" then some (now + 2592000)
  else none

/-- `GiftLinkService.CreateGiftLink` (same file, lines 205-264): validate the
amount, the owner and the balance of the owner, then in one transaction escrow the
amount to `system` via the transfer primitive (force-creating `system`) and
insert the active gift-link row.  The generated high-entropy code and the new
row id are passed as parameters in place of `crypto/rand` and the
auto-increment column. -/
def CreateGiftLink (s : BankState) (fromUsername : String) (amount : Int)
    (message expiresIn : String) (code : String) (newID : Nat) (now : Nat) :
    Except Err (GiftLink × BankState) :=
  if amount ≤ 0 then .error .invalidAmount
  else
    match findAcc s.accounts fromUsername with
    | none => .error .userNotFound
    | some fromUser =>
      if fromUser.beanAmount < amount then .error .insufficientBalanceForGift
      else
        let expiry := parseExpiry now expiresIn
        match TransferInTx s fromUsername "system" amount true with
        | .error e => .error e
        | .ok s1 =>
          let giftLink : GiftLink :=
            ⟨newID, code, fromUsername, amount, message, expiry, none, none, true⟩
          .ok (giftLink, { s1 with giftLinks := s1.giftLinks ++ [giftLink] })

/-- `GiftLinkService.RedeemGiftLink` (same file, lines 266-315): lock the link
row, guard redeemed / inactive / expired / own-link in that order, transfer the
escrowed amount from `system` to the redeemer (force-creating the redeemer),
stamp the redemption and deactivate the link — all in one transaction. -/
def RedeemGiftLink (s : BankState) (code redeemUsername : String) (now : Nat) :
    Except Err BankState :=
  match findGiftByCode s.giftLinks code with
  | none => .error .giftLinkNotFound
  | some giftLink =>
    if giftLink.redeemedAt.isSome then .error .giftLinkRedeemed
    else if !giftLink.active then .error .giftLinkInactive
    else if (match giftLink.expiresAt with | some t => decide (t < now) | none => false) then
      .error .giftLinkExpired
    else if giftLink.fromUser = redeemUsername then .error .cannotRedeemOwnLink
    else
      match TransferInTx s "system" redeemUsername giftLink.amount true with
      | .error e => .error e
      | .ok s1 =>
        match findAcc s1.accounts redeemUsername with
        | none => .error .storeError
        | some _ =>
          let g1 := { giftLink with redeemedAt := some now,
                                    redeemedBy := some redeemUsername,
                                    active := false }
          .ok { s1 with giftLinks := saveGift s1.giftLinks g1 }

/-- The ledger state observable after a `RedeemGiftLink` call (transactional
rollback on error). -/
def redeemRun (s : BankState) (code redeemUsername : String) (now : Nat) : BankState :=
  match RedeemGiftLink s code redeemUsername now with
  | .ok s1 => s1
  | .error _ => s

/-- `GiftLinkService.DeleteGiftLink` (same file, lines 329-364): only the owner
may delete; if the link is still unredeemed and active, refund the escrowed
amount from `system` back to the owner; in either case deactivate the link. -/
def DeleteGiftLink (s : BankState) (giftID : Nat) (username : String) :
    Except Err BankState :=
  match findAcc s.accounts username with
  | none => .error .userNotFound
  | some user =>
    match findGiftByID s.giftLinks giftID with
    | none => .error .giftLinkNotFound
    | some giftLink =>
      if giftLink.fromUser ≠ user.username then .error .notLinkOwner
      else
        if giftLink.redeemedAt.isNone ∧ giftLink.active then
          match TransferInTx s "system" username giftLink.amount true with
          | .error e => .error e
          | .ok s1 =>
              .ok { s1 with giftLinks := saveGift s1.giftLinks { giftLink with active := false } }
        else .ok { s with giftLinks := saveGift s.giftLinks { giftLink with active := false } }

/-- `TokenRepository.FindByToken` (src/internal/repository/token_repository.go
lines 22-34): `WHERE token = ? AND expires_at > now ... First`; a record whose
expiry has passed is filtered out by the query itself. -/
def FindByToken (tokens : List APIToken) (tokenStr : String) (now : Nat) :
    Option APIToken :=
  match tokens with
  | [] => none
  | t :: rest =>
      if t.token = tokenStr ∧ now < t.expiresAt then some t
      else FindByToken rest tokenStr now

/-- `TokenService.ValidateToken` (src/internal/services/token_service.go lines
74-104).  `parseClaims` abstracts `jwt.ParseWithClaims` together with the
HMAC-algorithm check and `token.Valid`: it returns `none` exactly on a
structural, signature or algorithm failure.  After a successful parse the
store record is required, and its expiry is compared against the clock. -/
def ValidateToken (parseClaims : String → Option TokenClaims)
    (tokens : List APIToken) (tokenString : String) (now : Nat) :
    Except Err TokenClaims :=
  match parseClaims tokenString with
  | none => .error .invalidToken
  | some claims =>
    match FindByToken tokens tokenString now with
    | none => .error .invalidToken
    | some dbToken =>
      if dbToken.expiresAt < now then .error .expiredToken
      else .ok claims

/-- `services.TransactionExport` (src/internal/services/export_service.go lines
19-27).  The `user_id` and `email` identity fields are carried over verbatim
from the account row and are irrelevant to every claim, so they are omitted;
the transaction items are the ledger entries themselves. -/
structure TransactionExport where
  username : String
  totalBeans : Int
  transactions : List LedgerEntry
  exportedAt : Nat
  signature : String
  deriving Repr, DecidableEq

/-- `TransactionRepository.FindByUsername` (src/internal/repository/harvest_repository.go,
second section, lines 107-118): all ledger entries naming the user on either
side, most recent first. -/
def historyFor (s : BankState) (username : String) : List LedgerEntry :=
  (s.ledger.filter (fun e => e.fromUser = username ∨ e.toUser = username)).reverse

/-- `ExportService.signExport` (src/internal/services/export_service.go lines
131-145): hex HMAC-SHA256 over the canonical serialization of the snapshot
with the signature field cleared.  `hmacHex` abstracts the keyed
HMAC-SHA256 + hex encoding (the signing key is baked into it) and `marshal`
abstracts `json.Marshal`. -/
def signExport (hmacHex : String → String) (marshal : TransactionExport → String)
    (e : TransactionExport) : String :=
  hmacHex (marshal { e with signature := "" })

/-- `ExportService.ExportTransactions` (same file, lines 52-94): require the
user, assemble the snapshot of identity, balance and full history, sign it and
attach the signature. -/
def ExportTransactions (hmacHex : String → String)
    (marshal : TransactionExport → String) (s : BankState) (username : String)
    (now : Nat) : Except Err TransactionExport :=
  match findAcc s.accounts username with
  | none => .error .userNotFound
  | some user =>
    let e : TransactionExport :=
      { username := user.username, totalBeans := user.beanAmount,
        transactions := historyFor s username, exportedAt := now, signature := "" }
    .ok { e with signature := signExport hmacHex marshal e }

/-- `ExportService.VerifyExportData` (same file, lines 113-129): reject a
missing signature, recompute the HMAC over the snapshot with the signature
field cleared, and compare with the claimed signature (`hmac.Equal` on equal-
length inputs is equality of the byte strings). -/
def VerifyExportData (hmacHex : String → String)
    (marshal : TransactionExport → String) (e : TransactionExport) :
    Except Err Bool :=
  if e.signature = "" then .error .invalidExport
  else .ok (signExport hmacHex marshal { e with signature := "" } = e.signature : Bool)

/-- The sequence of usernames on which `TransferService.Transfer`
(src/unnamed/part_003 lines 41-57) acquires `SELECT ... FOR UPDATE` row locks,
in acquisition order: the sender row is locked first and the recipient row
second, following the call-argument order of the two usernames. -/
def transferLocks (s : BankState) (fromUsername toUsername : String)
    (amount : Int) : List String :=
  if amount ≤ 0 ∨ fromUsername = toUsername then []
  else
    match findAcc s.accounts fromUsername with
    | none => []
    | some fromUser =>
      if fromUser.beanAmount < amount then [fromUsername]
      else
        match findAcc s.accounts toUsername with
        | none => [fromUsername]
        | some _ => [fromUsername, toUsername]

theorem findAcc_mem {accs : List Account} {u : String} {a : Account}
    (h : findAcc accs u = some a) : a ∈ accs ∧ a.username = u := by
  induction accs with
  | nil => simp [findAcc] at h
  | cons x rest ih =>
    by_cases hx : x.username = u
    · simp only [findAcc, if_pos hx, Option.some.injEq] at h
      subst h
      exact ⟨List.mem_cons_self x rest, hx⟩
    · simp only [findAcc, if_neg hx] at h
      obtain ⟨hm, hu⟩ := ih h
      exact ⟨List.mem_cons_of_mem x hm, hu⟩

theorem findAcc_eq_none {accs : List Account} {u : String} :
    findAcc accs u = none ↔ u ∉ users accs := by
  induction accs with
  | nil => simp [findAcc, users]
  | cons x rest ih =>
    by_cases hx : x.username = u
    · simp [findAcc, users, hx]
    · simp [findAcc, users, hx, ih]
      intro h
      exact fun he => hx he.symm

theorem username_update (x : Account) (b : Int) :
    ({ x with beanAmount := b } : Account).username = x.username := rfl

theorem users_setBal (accs : List Account) (u : String) (b : Int) :
    users (setBal accs u b) = users accs := by
  induction accs with
  | nil => rfl
  | cons x rest ih =>
    simp only [users, List.map_cons] at ih ⊢
    simp only [setBal]
    have hhead : (if x.username = u then ({ x with beanAmount := b } : Account) else x).username
        = x.username := by
      by_cases hx : x.username = u <;> simp [hx, username_update]
    simp only [List.map_cons, hhead, ih]

theorem setBal_not_mem {accs : List Account} {u : String} (h : u ∉ users accs) (b : Int) :
    setBal accs u b = accs := by
  induction accs with
  | nil => rfl
  | cons y r ih =>
    simp only [users, List.map_cons, List.mem_cons] at h
    push_neg at h
    simp only [setBal]
    rw [if_neg (fun he => h.1 he.symm), ih (by simpa [users] using h.2)]

theorem findAcc_setBal_ne {v u : String} (hvu : v ≠ u) (accs : List Account) (b : Int) :
    findAcc (setBal accs u b) v = findAcc accs v := by
  induction accs with
  | nil => rfl
  | cons x rest ih =>
    by_cases hx : x.username = u
    · have hxv : x.username ≠ v := by rw [hx]; exact fun he => hvu he.symm
      simp only [setBal, if_pos hx, findAcc, username_update, if_neg hxv]
      exact ih
    · simp only [setBal, if_neg hx, findAcc]
      by_cases hxv : x.username = v
      · simp [hxv]
      · simp [hxv, ih]

theorem findAcc_setBal_self (accs : List Account) (u : String) (b : Int) :
    findAcc (setBal accs u b) u =
      (findAcc accs u).map (fun a => { a with beanAmount := b }) := by
  induction accs with
  | nil => rfl
  | cons x rest ih =>
    by_cases hx : x.username = u
    · simp [setBal, if_pos hx, findAcc, username_update]
    · simp only [setBal, if_neg hx, findAcc, if_neg hx, ih]

theorem findAcc_append_some {accs : List Account} {u : String} {a : Account}
    (l : List Account) (h : findAcc accs u = some a) :
    findAcc (accs ++ l) u = some a := by
  induction accs with
  | nil => simp [findAcc] at h
  | cons x rest ih =>
    by_cases hx : x.username = u
    · simp only [findAcc, if_pos hx, Option.some.injEq] at h
      subst h
      simp [findAcc, hx]
    · simp only [findAcc, if_neg hx] at h
      simp [findAcc, hx, ih h]

theorem findAcc_append_none {accs : List Account} {u : String}
    (x : Account) (h : findAcc accs u = none) :
    findAcc (accs ++ [x]) u = if x.username = u then some x else none := by
  induction accs with
  | nil => simp [findAcc]
  | cons y rest ih =>
    by_cases hy : y.username = u
    · simp [findAcc, hy] at h
    · simp only [findAcc, if_neg hy] at h
      simp [findAcc, hy, ih h]

theorem sumBal_append (accs : List Account) (x : Account) :
    sumBal (accs ++ [x]) = sumBal accs + x.beanAmount := by
  simp [sumBal]

theorem sumBal_setBal {accs : List Account} {u : String} {a : Account} {b : Int}
    (hn : (users accs).Nodup) (hf : findAcc accs u = some a) :
    sumBal (setBal accs u b) = sumBal accs - a.beanAmount + b := by
  induction accs with
  | nil => simp [findAcc] at hf
  | cons x rest ih =>
    have hn2 : x.username ∉ List.map Account.username rest ∧
        (List.map Account.username rest).Nodup := by
      have := hn
      simp only [users, List.map_cons, List.nodup_cons] at this
      exact this
    by_cases hx : x.username = u
    · simp only [findAcc, if_pos hx, Option.some.injEq] at hf
      subst hf
      have hmem : u ∉ users rest := by
        have := hn2.1
        rw [hx] at this
        exact this
      simp only [setBal, if_pos hx, sumBal, List.map_cons, List.sum_cons,
        setBal_not_mem hmem]
      ring
    · simp only [findAcc, if_neg hx] at hf
      have := ih hn2.2 hf
      simp only [sumBal] at this ⊢
      simp only [setBal, if_neg hx, List.map_cons, List.sum_cons, this]
      ring

theorem mem_setBal {accs : List Account} {u : String} {b : Int} {x : Account}
    (hx : x ∈ setBal accs u b) :
    x ∈ accs ∨ ∃ a ∈ accs, x = { a with beanAmount := b } := by
  induction accs with
  | nil => simp [setBal] at hx
  | cons y rest ih =>
    by_cases hy : y.username = u
    · simp only [setBal, if_pos hy, List.mem_cons] at hx
      rcases hx with h | h
      · exact Or.inr ⟨y, List.mem_cons_self y rest, h⟩
      · rcases ih h with h1 | ⟨a, ha, he⟩
        · exact Or.inl (List.mem_cons_of_mem y h1)
        · exact Or.inr ⟨a, List.mem_cons_of_mem y ha, he⟩
    · simp only [setBal, if_neg hy, List.mem_cons] at hx
      rcases hx with h | h
      · exact Or.inl (by simp [h])
      · rcases ih h with h1 | ⟨a, ha, he⟩
        · exact Or.inl (List.mem_cons_of_mem y h1)
        · exact Or.inr ⟨a, List.mem_cons_of_mem y ha, he⟩

theorem findGiftByCode_mem {gs : List GiftLink} {c : String} {g : GiftLink}
    (h : findGiftByCode gs c = some g) : g ∈ gs ∧ g.code = c := by
  induction gs with
  | nil => simp [findGiftByCode] at h
  | cons x rest ih =>
    by_cases hx : x.code = c
    · simp only [findGiftByCode, if_pos hx, Option.some.injEq] at h
      subst h
      exact ⟨List.mem_cons_self x rest, hx⟩
    · simp only [findGiftByCode, if_neg hx] at h
      obtain ⟨hm, hc⟩ := ih h
      exact ⟨List.mem_cons_of_mem x hm, hc⟩

theorem findGiftByCode_saveGift {gs : List GiftLink} {c : String} {g g1 : GiftLink}
    (hn : (gs.map GiftLink.id).Nodup) (hf : findGiftByCode gs c = some g)
    (hid : g1.id = g.id) (hc : g1.code = g.code) :
    findGiftByCode (saveGift gs g1) c = some g1 := by
  induction gs with
  | nil => simp [findGiftByCode] at hf
  | cons x rest ih =>
    have hn2 : x.id ∉ rest.map GiftLink.id ∧ (rest.map GiftLink.id).Nodup := by
      have := hn
      simp only [List.map_cons, List.nodup_cons] at this
      exact this
    by_cases hx : x.code = c
    · simp only [findGiftByCode, if_pos hx, Option.some.injEq] at hf
      subst hf
      simp only [saveGift, if_pos (hid.symm ▸ rfl : x.id = g1.id).symm]
      rw [if_pos hid.symm]
      simp only [findGiftByCode]
      rw [if_pos (by rw [hc, hx])]
    · simp only [findGiftByCode, if_neg hx] at hf
      have hgmem : g ∈ rest := (findGiftByCode_mem hf).1
      have hne : x.id ≠ g1.id := by
        rw [hid]
        intro he
        exact hn2.1 (he ▸ List.mem_map_of_mem GiftLink.id hgmem)
      simp only [saveGift, if_neg hne, findGiftByCode, if_neg hx]
      exact ih hn2.2 hf

theorem findHarvest_mem {hs : List Harvest} {hid : Nat} {h : Harvest}
    (hf : findHarvest hs hid = some h) : h ∈ hs ∧ h.id = hid := by
  induction hs with
  | nil => simp [findHarvest] at hf
  | cons x rest ih =>
    by_cases hx : x.id = hid
    · simp only [findHarvest, if_pos hx, Option.some.injEq] at hf
      subst hf
      exact ⟨List.mem_cons_self x rest, hx⟩
    · simp only [findHarvest, if_neg hx] at hf
      obtain ⟨hm, hi⟩ := ih hf
      exact ⟨List.mem_cons_of_mem x hm, hi⟩

theorem findHarvest_saveHarvest {hs : List Harvest} {hid : Nat} {h h1 : Harvest}
    (hf : findHarvest hs hid = some h) (hi : h1.id = h.id) :
    findHarvest (saveHarvest hs h1) hid = some h1 := by
  induction hs with
  | nil => simp [findHarvest] at hf
  | cons x rest ih =>
    have hkey : h.id = hid := (findHarvest_mem hf).2
    by_cases hx : x.id = hid
    · simp only [findHarvest, if_pos hx, Option.some.injEq] at hf
      subst hf
      simp only [saveHarvest]
      rw [if_pos hi.symm]
      simp only [findHarvest]
      rw [if_pos (by rw [hi, hx])]
    · simp only [findHarvest, if_neg hx] at hf
      have hne : x.id ≠ h1.id := by
        rw [hi, hkey]
        exact hx
      simp only [saveHarvest, if_neg hne, findHarvest, if_neg hx]
      exact ih hf

theorem transferTx_ok_inv {s : BankState} {f t : String} {a : Int} {force : Bool}
    {s1 : BankState} (h : transferTx s f t a force = .ok s1) :
    ∃ fa, findAcc s.accounts f = some fa ∧ a ≤ fa.beanAmount ∧
      ((∃ ta, findAcc s.accounts t = some ta ∧
          s1 = { s with
                 accounts := setBal (setBal s.accounts f (fa.beanAmount - a)) t
                   (ta.beanAmount + a),
                 ledger := s.ledger ++ [⟨f, t, a, ""⟩] }) ∨
       (findAcc s.accounts t = none ∧ force = true ∧
          s1 = { s with
                 accounts := setBal (setBal (s.accounts ++ [⟨t, 0⟩]) f
                   (fa.beanAmount - a)) t (0 + a),
                 ledger := s.ledger ++ [⟨f, t, a, ""⟩] })) := by
  unfold transferTx at h
  split at h
  · exact absurd h (by simp)
  next fa hf =>
    split at h
    · exact absurd h (by simp)
    next hbal =>
      split at h
      next ht =>
        split at h
        · exact absurd h (by simp)
        next hforce =>
          simp only [Except.ok.injEq] at h
          refine ⟨fa, hf, by omega, Or.inr ⟨ht, ?_, h.symm⟩⟩
          revert hforce
          cases force <;> simp
      next ta ht =>
        simp only [Except.ok.injEq] at h
        exact ⟨fa, hf, by omega, Or.inl ⟨ta, ht, h.symm⟩⟩

theorem transferInTx_eq_transfer (s : BankState) (f t : String) (a : Int) (force : Bool) :
    TransferInTx s f t a force = Transfer s f t a force := rfl

theorem transfer_ok_inv {s : BankState} {f t : String} {a : Int} {force : Bool}
    {s1 : BankState} (h : Transfer s f t a force = .ok s1) :
    0 < a ∧ f ≠ t ∧ transferTx s f t a force = .ok s1 := by
  unfold Transfer at h
  split at h
  · exact absurd h (by simp)
  next ha =>
    split at h
    · exact absurd h (by simp)
    next hne => exact ⟨by omega, hne, h⟩

theorem transferTx_other_tables {s : BankState} {f t : String} {a : Int}
    {force : Bool} {s1 : BankState} (h : transferTx s f t a force = .ok s1) :
    s1.giftLinks = s.giftLinks ∧ s1.harvests = s.harvests := by
  obtain ⟨fa, hf, hle, hcase⟩ := transferTx_ok_inv h
  rcases hcase with ⟨ta, ht, he⟩ | ⟨ht, hforce, he⟩ <;> subst he <;> exact ⟨rfl, rfl⟩

theorem transferTx_totalBeans {s : BankState} {f t : String} {a : Int}
    {force : Bool} {s1 : BankState} (hn : (users s.accounts).Nodup) (hne : f ≠ t)
    (h : transferTx s f t a force = .ok s1) : totalBeans s1 = totalBeans s := by
  obtain ⟨fa, hf, hle, hcase⟩ := transferTx_ok_inv h
  rcases hcase with ⟨ta, ht, he⟩ | ⟨ht, hforce, he⟩
  · subst he
    have h1 : findAcc (setBal s.accounts f (fa.beanAmount - a)) t = some ta := by
      rw [findAcc_setBal_ne (Ne.symm hne), ht]
    have hn1 : (users (setBal s.accounts f (fa.beanAmount - a))).Nodup := by
      rw [users_setBal]; exact hn
    show sumBal _ = sumBal _
    rw [sumBal_setBal hn1 h1, sumBal_setBal hn hf]
    ring
  · subst he
    have ht0 : findAcc (s.accounts ++ [⟨t, 0⟩]) t = some ⟨t, 0⟩ := by
      rw [findAcc_append_none _ ht]
      simp
    have hf0 : findAcc (s.accounts ++ [⟨t, 0⟩]) f = some fa := findAcc_append_some _ hf
    have hn0 : (users (s.accounts ++ [⟨t, 0⟩])).Nodup := by
      have htmem : t ∉ users s.accounts := findAcc_eq_none.mp ht
      simp [users, List.nodup_append]
      constructor
      · simpa [users] using hn
      · intro x hx hxe
        exact htmem (by simpa [users, hxe] using List.mem_map_of_mem Account.username hx)
    have h1 : findAcc (setBal (s.accounts ++ [⟨t, 0⟩]) f (fa.beanAmount - a)) t
        = some ⟨t, 0⟩ := by
      rw [findAcc_setBal_ne (Ne.symm hne), ht0]
    have hn1 : (users (setBal (s.accounts ++ [⟨t, 0⟩]) f (fa.beanAmount - a))).Nodup := by
      rw [users_setBal]; exact hn0
    show sumBal _ = sumBal _
    rw [sumBal_setBal hn1 h1, sumBal_setBal hn0 hf0, sumBal_append]
    ring

theorem transferTx_nonneg {s : BankState} {f t : String} {a : Int} {force : Bool}
    {s1 : BankState} (hnn : ∀ x ∈ s.accounts, 0 ≤ x.beanAmount) (hpos : 0 < a)
    (h : transferTx s f t a force = .ok s1) : ∀ x ∈ s1.accounts, 0 ≤ x.beanAmount := by
  obtain ⟨fa, hf, hle, hcase⟩ := transferTx_ok_inv h
  have hta : ∀ x ∈ s.accounts ++ [(⟨t, 0⟩ : Account)], 0 ≤ x.beanAmount := by
    intro x hx
    rcases List.mem_append.mp hx with h1 | h1
    · exact hnn x h1
    · simp only [List.mem_singleton] at h1
      subst h1
      exact le_refl 0
  rcases hcase with ⟨ta, ht, he⟩ | ⟨ht, hforce, he⟩ <;> subst he <;> intro x hx
  · rcases mem_setBal hx with hx1 | ⟨a1, ha1, he1⟩
    · rcases mem_setBal hx1 with hx2 | ⟨a2, ha2, he2⟩
      · exact hnn x hx2
      · subst he2
        show 0 ≤ fa.beanAmount - a
        omega
    · subst he1
      show 0 ≤ ta.beanAmount + a
      have := hnn ta (findAcc_mem ht).1
      omega
  · rcases mem_setBal hx with hx1 | ⟨a1, ha1, he1⟩
    · rcases mem_setBal hx1 with hx2 | ⟨a2, ha2, he2⟩
      · exact hta x hx2
      · subst he2
        show 0 ≤ fa.beanAmount - a
        omega
    · subst he1
      show 0 ≤ 0 + a
      omega

/-- C2: for distinct existing accounts and an amount within the balance of the sender, a successful transfer debits the sender by exactly the amount,
credits the recipient by exactly the amount, and appends exactly one ledger
entry recording sender, recipient and amount. -/
theorem transfer_success_effects (s : BankState) (f t : String) (a : Int)
    (force : Bool) (fa ta : Account)
    (hf : findAcc s.accounts f = some fa) (ht : findAcc s.accounts t = some ta)
    (hne : f ≠ t) (hpos : 0 < a) (hle : a ≤ fa.beanAmount) :
    ∃ s1, Transfer s f t a force = .ok s1 ∧
      findAcc s1.accounts f = some { fa with beanAmount := fa.beanAmount - a } ∧
      findAcc s1.accounts t = some { ta with beanAmount := ta.beanAmount + a } ∧
      s1.ledger = s.ledger ++ [⟨f, t, a, ""⟩] := by
  have ha : ¬ a ≤ 0 := by omega
  have hbal : ¬ fa.beanAmount < a := by omega
  refine ⟨{ s with
            accounts := setBal (setBal s.accounts f (fa.beanAmount - a)) t
              (ta.beanAmount + a),
            ledger := s.ledger ++ [⟨f, t, a, ""⟩] }, ?_, ?_, ?_, rfl⟩
  · simp only [Transfer, if_neg ha, if_neg hne, transferTx, hf, if_neg hbal, ht]
  · show findAcc (setBal (setBal s.accounts f (fa.beanAmount - a)) t
      (ta.beanAmount + a)) f = _
    rw [findAcc_setBal_ne hne, findAcc_setBal_self, hf]
    rfl
  · show findAcc (setBal (setBal s.accounts f (fa.beanAmount - a)) t
      (ta.beanAmount + a)) t = _
    rw [findAcc_setBal_self, findAcc_setBal_ne (Ne.symm hne), ht]
    rfl

/-- The concrete scenario of C2: Alice at 100 and Bob at 50,
transfer(alice, bob, 30, force=false) leaves Alice at 70 and Bob at 80 with
one new ledger entry alice→bob of 30. -/
theorem transfer_success_effects_witness :
    ∃ s1, Transfer ⟨[⟨"alice", 100⟩, ⟨"bob", 50⟩], [], [], []⟩ "alice" "bob" 30 false
        = .ok s1 ∧
      findAcc s1.accounts "alice" = some ⟨"alice", 70⟩ ∧
      findAcc s1.accounts "bob" = some ⟨"bob", 80⟩ ∧
      s1.ledger = [⟨"alice", "bob", 30, ""⟩] := by
  obtain ⟨s1, h1, h2, h3, h4⟩ :=
    transfer_success_effects ⟨[⟨"alice", 100⟩, ⟨"bob", 50⟩], [], [], []⟩
      "alice" "bob" 30 false ⟨"alice", 100⟩ ⟨"bob", 50⟩ (by decide) (by decide)
      (by decide) (by decide) (by decide)
  exact ⟨s1, h1, h2, h3, by simpa using h4⟩

/-- C3: the transfer error taxonomy, in code precedence order — `InvalidAmount`
iff the amount is nonpositive; otherwise `SelfTransfer` iff sender equals
recipient; otherwise `UserNotFound` iff the sender is absent; otherwise
`InsufficientBalance` iff the sender balance is below the amount; otherwise
`RecipientNotFound` iff the recipient is absent and force is off — and every
error leaves the observable state (balances and ledger) unchanged. -/
theorem transfer_error_taxonomy (s : BankState) (f t : String) (a : Int)
    (force : Bool) :
    (Transfer s f t a force = .error .invalidAmount ↔ a ≤ 0) ∧
    (Transfer s f t a force = .error .selfTransfer ↔ 0 < a ∧ f = t) ∧
    (Transfer s f t a force = .error .userNotFound ↔
      0 < a ∧ f ≠ t ∧ findAcc s.accounts f = none) ∧
    (Transfer s f t a force = .error .insufficientBalance ↔
      0 < a ∧ f ≠ t ∧ ∃ fa, findAcc s.accounts f = some fa ∧ fa.beanAmount < a) ∧
    (Transfer s f t a force = .error .recipientNotFound ↔
      0 < a ∧ f ≠ t ∧ (∃ fa, findAcc s.accounts f = some fa ∧ a ≤ fa.beanAmount) ∧
        findAcc s.accounts t = none ∧ force = false) ∧
    (∀ e, Transfer s f t a force = .error e → transferRun s f t a force = s) := by
  by_cases ha : a ≤ 0
  · have hT : Transfer s f t a force = .error .invalidAmount := by
      simp [Transfer, ha]
    refine ⟨iff_of_true hT ha, ?_, ?_, ?_, ?_, ?_⟩
    · exact iff_of_false (by rw [hT]; simp) (by rintro ⟨h1, -⟩; omega)
    · exact iff_of_false (by rw [hT]; simp) (by rintro ⟨h1, -⟩; omega)
    · exact iff_of_false (by rw [hT]; simp) (by rintro ⟨h1, -⟩; omega)
    · exact iff_of_false (by rw [hT]; simp) (by rintro ⟨h1, -⟩; omega)
    · intro e he
      simp [transferRun, hT]
  · by_cases hft : f = t
    · have hT : Transfer s f t a force = .error .selfTransfer := by
        simp [Transfer, ha, hft]
      refine ⟨iff_of_false (by rw [hT]; simp) ha, iff_of_true hT ⟨by omega, hft⟩,
              ?_, ?_, ?_, ?_⟩
      · exact iff_of_false (by rw [hT]; simp) (by rintro ⟨-, hc, -⟩; exact hc hft)
      · exact iff_of_false (by rw [hT]; simp) (by rintro ⟨-, hc, -⟩; exact hc hft)
      · exact iff_of_false (by rw [hT]; simp) (by rintro ⟨-, hc, -⟩; exact hc hft)
      · intro e he
        simp [transferRun, hT]
    · rcases hff : findAcc s.accounts f with _ | fa
      · have hT : Transfer s f t a force = .error .userNotFound := by
          simp [Transfer, transferTx, ha, hft, hff]
        refine ⟨iff_of_false (by rw [hT]; simp) ha,
                iff_of_false (by rw [hT]; simp) (by rintro ⟨-, hc⟩; exact hft hc),
                iff_of_true hT ⟨by omega, hft, rfl⟩,
                iff_of_false (by rw [hT]; simp)
                  (by rintro ⟨-, -, fa, hc, -⟩; cases hc),
                iff_of_false (by rw [hT]; simp)
                  (by rintro ⟨-, -, ⟨fa, hc, -⟩, -, -⟩; cases hc),
                ?_⟩
        intro e he
        simp [transferRun, hT]
      · by_cases hbal : fa.beanAmount < a
        · have hT : Transfer s f t a force = .error .insufficientBalance := by
            simp [Transfer, transferTx, ha, hft, hff, hbal]
          refine ⟨iff_of_false (by rw [hT]; simp) ha,
                  iff_of_false (by rw [hT]; simp) (by rintro ⟨-, hc⟩; exact hft hc),
                  iff_of_false (by rw [hT]; simp)
                    (by rintro ⟨-, -, hc⟩; cases hc),
                  iff_of_true hT ⟨by omega, hft, fa, rfl, hbal⟩,
                  iff_of_false (by rw [hT]; simp)
                    (by rintro ⟨-, -, ⟨fa2, hc, hle⟩, -, -⟩
                        injection hc with hc
                        subst hc
                        omega),
                  ?_⟩
          intro e he
          simp [transferRun, hT]
        · rcases hfto : findAcc s.accounts t with _ | ta
          · cases hforce : force
            · have hT : Transfer s f t a false = .error .recipientNotFound := by
                simp [Transfer, transferTx, ha, hft, hff, hbal, hfto]
              refine ⟨iff_of_false (by rw [hT]; simp) ha,
                      iff_of_false (by rw [hT]; simp) (by rintro ⟨-, hc⟩; exact hft hc),
                      iff_of_false (by rw [hT]; simp)
                        (by rintro ⟨-, -, hc⟩; cases hc),
                      iff_of_false (by rw [hT]; simp)
                        (by rintro ⟨-, -, fa2, hc, hlt⟩
                            injection hc with hc
                            subst hc
                            omega),
                      iff_of_true hT ⟨by omega, hft, ⟨fa, rfl, by omega⟩, rfl, rfl⟩,
                      ?_⟩
              intro e he
              simp [transferRun, hT]
            · have hok : ∀ e, Transfer s f t a true ≠ .error e := by
                intro e he
                simp [Transfer, transferTx, ha, hft, hff, hbal, hfto] at he
              refine ⟨iff_of_false (hok _) ha,
                      iff_of_false (hok _) (by rintro ⟨-, hc⟩; exact hft hc),
                      iff_of_false (hok _) (by rintro ⟨-, -, hc⟩; cases hc),
                      iff_of_false (hok _)
                        (by rintro ⟨-, -, fa2, hc, hlt⟩
                            injection hc with hc
                            subst hc
                            omega),
                      iff_of_false (hok _) (by rintro ⟨-, -, -, -, hc⟩; cases hc),
                      ?_⟩
              intro e he
              exact absurd he (hok _)
          · have hok : ∀ e, Transfer s f t a force ≠ .error e := by
              intro e he
              simp [Transfer, transferTx, ha, hft, hff, hbal, hfto] at he
            refine ⟨iff_of_false (hok _) ha,
                    iff_of_false (hok _) (by rintro ⟨-, hc⟩; exact hft hc),
                    iff_of_false (hok _) (by rintro ⟨-, -, hc⟩; cases hc),
                    iff_of_false (hok _)
                      (by rintro ⟨-, -, fa2, hc, hlt⟩
                          injection hc with hc
                          subst hc
                          omega),
                    iff_of_false (hok _) (by rintro ⟨-, -, -, hc, -⟩; cases hc),
                    ?_⟩
            intro e he
            exact absurd he (hok _)

/-- Concrete instance of C3: Alice at 10 cannot send 20 — `InsufficientBalance`
and the state is untouched. -/
theorem transfer_error_taxonomy_witness :
    (Transfer ⟨[⟨"alice", 10⟩, ⟨"bob", 50⟩], [], [], []⟩ "alice" "bob" 20 false
      = .error .insufficientBalance ↔
      (0 : Int) < 20 ∧ "alice" ≠ "bob" ∧
        ∃ fa, findAcc [⟨"alice", 10⟩, ⟨"bob", 50⟩] "alice" = some fa ∧
          fa.beanAmount < 20) ∧
    transferRun ⟨[⟨"alice", 10⟩, ⟨"bob", 50⟩], [], [], []⟩ "alice" "bob" 20 false
      = ⟨[⟨"alice", 10⟩, ⟨"bob", 50⟩], [], [], []⟩ := by
  have h := transfer_error_taxonomy ⟨[⟨"alice", 10⟩, ⟨"bob", 50⟩], [], [], []⟩
    "alice" "bob" 20 false
  exact ⟨h.2.2.2.1, h.2.2.2.2.2 .insufficientBalance (by rfl)⟩

deriving instance DecidableEq for Except

theorem sumBal_ensureSystem (accs : List Account) :
    sumBal (ensureSystem accs) = sumBal accs := by
  unfold ensureSystem
  rcases h : findAcc accs "system" with _ | sys
  · rw [sumBal_append]
    simp
  · rfl

theorem users_nodup_ensureSystem {accs : List Account} (hn : (users accs).Nodup) :
    (users (ensureSystem accs)).Nodup := by
  unfold ensureSystem
  rcases h : findAcc accs "system" with _ | sys
  · have hmem : "system" ∉ users accs := findAcc_eq_none.mp h
    simp only [users, List.map_append, List.map_cons, List.map_nil]
    rw [List.nodup_append]
    refine ⟨by simpa [users] using hn, List.nodup_singleton _, ?_⟩
    intro x hx
    simp only [List.mem_singleton]
    intro hxe
    exact hmem (by simpa [users, hxe] using hx)
  · exact hn

theorem mem_ensureSystem {accs : List Account} {x : Account}
    (hx : x ∈ ensureSystem accs) : x ∈ accs ∨ x = ⟨"system", 0⟩ := by
  unfold ensureSystem at hx
  rcases h : findAcc accs "system" with _ | sys <;> rw [h] at hx
  · rcases List.mem_append.mp hx with h1 | h1
    · exact Or.inl h1
    · simp only [List.mem_singleton] at h1
      exact Or.inr h1
  · exact Or.inl hx

theorem transferInTx_ok_inv {s : BankState} {f t : String} {a : Int} {force : Bool}
    {s1 : BankState} (h : TransferInTx s f t a force = .ok s1) :
    0 < a ∧ f ≠ t ∧ transferTx s f t a force = .ok s1 :=
  transfer_ok_inv (by rw [← transferInTx_eq_transfer]; exact h)

theorem transferInTx_totalBeans {s : BankState} {f t : String} {a : Int}
    {force : Bool} {s1 : BankState} (hn : (users s.accounts).Nodup)
    (h : TransferInTx s f t a force = .ok s1) : totalBeans s1 = totalBeans s := by
  obtain ⟨hpos, hne, htx⟩ := transferInTx_ok_inv h
  exact transferTx_totalBeans hn hne htx

theorem transferInTx_other_tables {s : BankState} {f t : String} {a : Int}
    {force : Bool} {s1 : BankState} (h : TransferInTx s f t a force = .ok s1) :
    s1.giftLinks = s.giftLinks ∧ s1.harvests = s.harvests :=
  transferTx_other_tables (transferInTx_ok_inv h).2.2

theorem transferInTx_nonneg {s : BankState} {f t : String} {a : Int}
    {force : Bool} {s1 : BankState} (hnn : ∀ x ∈ s.accounts, 0 ≤ x.beanAmount)
    (h : TransferInTx s f t a force = .ok s1) : ∀ x ∈ s1.accounts, 0 ≤ x.beanAmount := by
  obtain ⟨hpos, hne, htx⟩ := transferInTx_ok_inv h
  exact transferTx_nonneg hnn hpos htx

theorem createGiftLink_ok_inv {s : BankState} {f : String} {a : Int}
    {m ei c : String} {nid now : Nat} {g : GiftLink} {s1 : BankState}
    (h : CreateGiftLink s f a m ei c nid now = .ok (g, s1)) :
    ∃ fromUser s2, findAcc s.accounts f = some fromUser ∧ 0 < a ∧
      a ≤ fromUser.beanAmount ∧
      TransferInTx s f "system" a true = .ok s2 ∧
      g = ⟨nid, c, f, a, m, parseExpiry now ei, none, none, true⟩ ∧
      s1 = { s2 with giftLinks := s2.giftLinks ++ [g] } := by
  unfold CreateGiftLink at h
  split at h
  · exact absurd h (by simp)
  next ha =>
    split at h
    · exact absurd h (by simp)
    next fromUser hfu =>
      split at h
      · exact absurd h (by simp)
      next hbal =>
        split at h
        next e hTr => exact absurd h (by simp)
        next s2 hTr =>
          simp only [Except.ok.injEq, Prod.mk.injEq] at h
          obtain ⟨h1, h2⟩ := h
          subst h1
          exact ⟨fromUser, s2, hfu, by omega, by omega, hTr, rfl, h2.symm⟩

/-- The updated gift-link row written by a successful redemption: redemption
time and redeemer stamped, link deactivated. -/
def redeemedMark (g : GiftLink) (u : String) (now : Nat) : GiftLink :=
  { g with redeemedAt := some now, redeemedBy := some u, active := false }

theorem redeemGiftLink_ok_inv {s : BankState} {code u : String} {now : Nat}
    {s1 : BankState} (h : RedeemGiftLink s code u now = .ok s1) :
    ∃ g s2, findGiftByCode s.giftLinks code = some g ∧ g.redeemedAt = none ∧
      g.active = true ∧ g.fromUser ≠ u ∧
      TransferInTx s "system" u g.amount true = .ok s2 ∧
      s1 = { s2 with giftLinks := saveGift s2.giftLinks (redeemedMark g u now) } := by
  unfold RedeemGiftLink at h
  split at h
  · exact absurd h (by simp)
  next g hg =>
    split at h
    · exact absurd h (by simp)
    next hred =>
      split at h
      · exact absurd h (by simp)
      next hact =>
        split at h
        · exact absurd h (by simp)
        next hexp =>
          split at h
          · exact absurd h (by simp)
          next hown =>
            split at h
            next e hTr => exact absurd h (by simp)
            next s2 hTr =>
              split at h
              · exact absurd h (by simp)
              next racc hracc =>
                simp only [Except.ok.injEq] at h
                refine ⟨g, s2, hg, ?_, ?_, hown, hTr, h.symm⟩
                · simpa using hred
                · simpa using hact

theorem deleteGiftLink_ok_inv {s : BankState} {gid : Nat} {u : String}
    {s1 : BankState} (h : DeleteGiftLink s gid u = .ok s1) :
    ∃ user g s2, findAcc s.accounts u = some user ∧
      findGiftByID s.giftLinks gid = some g ∧ g.fromUser = user.username ∧
      ((g.redeemedAt = none ∧ g.active = true ∧
          TransferInTx s "system" u g.amount true = .ok s2) ∨
       (¬(g.redeemedAt = none ∧ g.active = true) ∧ s2 = s)) ∧
      s1 = { s2 with giftLinks := saveGift s2.giftLinks { g with active := false } } := by
  unfold DeleteGiftLink at h
  split at h
  · exact absurd h (by simp)
  next user huser =>
    split at h
    · exact absurd h (by simp)
    next g hg =>
      split at h
      · exact absurd h (by simp)
      next howner =>
        rw [not_not] at howner
        by_cases hcond : g.redeemedAt.isNone = true ∧ g.active = true
        · rw [if_pos hcond] at h
          split at h
          next e hTr => exact absurd h (by simp)
          next s2 hTr =>
            simp only [Except.ok.injEq] at h
            refine ⟨user, g, s2, huser, hg, howner, Or.inl ?_, h.symm⟩
            obtain ⟨h1, h2⟩ := hcond
            exact ⟨by simpa using h1, by simpa using h2, hTr⟩
        · rw [if_neg hcond] at h
          simp only [Except.ok.injEq] at h
          refine ⟨user, g, s, huser, hg, howner, Or.inr ⟨?_, rfl⟩, h.symm⟩
          intro hcontra
          exact hcond ⟨by simp [hcontra.1], by simp [hcontra.2]⟩

theorem completeHarvest_ok_inv {s : BankState} {hid : Nat} {s1 : BankState}
    (h : CompleteHarvest s hid = .ok s1) :
    ∃ harvest au acc, findHarvest s.harvests hid = some harvest ∧
      harvest.completed = false ∧ harvest.assignedUser = some au ∧
      findAcc s.accounts au = some acc ∧
      s1 = { s with
             accounts := ensureSystem
               (setBal s.accounts au (acc.beanAmount + harvest.beanAmount)),
             ledger := s.ledger ++
               [⟨"system", au, harvest.beanAmount,
                 "Harvest completed: " ++ harvest.title⟩],
             harvests := saveHarvest s.harvests { harvest with completed := true } } := by
  unfold CompleteHarvest at h
  split at h
  · exact absurd h (by simp)
  next harvest hh =>
    split at h
    · exact absurd h (by simp)
    next hcomp =>
      split at h
      · exact absurd h (by simp)
      next au hau =>
        split at h
        · exact absurd h (by simp)
        next acc hacc =>
          simp only [Except.ok.injEq] at h
          exact ⟨harvest, au, acc, hh, by simpa using hcomp, hau, hacc, h.symm⟩

theorem findAcc_ensureSystem_of_some {accs : List Account} {u : String} {a : Account}
    (h : findAcc accs u = some a) : findAcc (ensureSystem accs) u = some a := by
  unfold ensureSystem
  rcases hs : findAcc accs "system" with _ | sys
  · exact findAcc_append_some _ h
  · exact h

theorem findAcc_ensureSystem_create {accs : List Account}
    (h : findAcc accs "system" = none) :
    findAcc (ensureSystem accs) "system" = some ⟨"system", 0⟩ := by
  unfold ensureSystem
  rw [h, findAcc_append_none _ h]
  simp

theorem transferTx_force_create {s : BankState} {f t : String} {a : Int}
    {s1 : BankState} (hne : f ≠ t) (ht : findAcc s.accounts t = none)
    (h : transferTx s f t a true = .ok s1) :
    findAcc s1.accounts t = some ⟨t, a⟩ := by
  obtain ⟨fa, hf, hle, hcase⟩ := transferTx_ok_inv h
  rcases hcase with ⟨ta, hta, he⟩ | ⟨-, -, he⟩
  · rw [ht] at hta
    cases hta
  · subst he
    show findAcc (setBal (setBal (s.accounts ++ [⟨t, 0⟩]) f (fa.beanAmount - a)) t
      (0 + a)) t = _
    rw [findAcc_setBal_self, findAcc_setBal_ne (Ne.symm hne), findAcc_append_none _ ht]
    simp

theorem findByToken_none_of_expired {tokens : List APIToken} {str : String}
    {now : Nat} (h : ∀ tk ∈ tokens, tk.token = str → tk.expiresAt ≤ now) :
    FindByToken tokens str now = none := by
  induction tokens with
  | nil => rfl
  | cons t rest ih =>
    have ht := h t (List.mem_cons_self t rest)
    unfold FindByToken
    rw [if_neg ?_]
    · exact ih (fun tk hm => h tk (List.mem_cons_of_mem t hm))
    · rintro ⟨h1, h2⟩
      have := ht h1
      omega

theorem findByToken_some {tokens : List APIToken} {str : String} {now : Nat}
    {tk : APIToken} (h : FindByToken tokens str now = some tk) :
    tk.token = str ∧ now < tk.expiresAt := by
  induction tokens with
  | nil => simp [FindByToken] at h
  | cons t rest ih =>
    by_cases hc : t.token = str ∧ now < t.expiresAt
    · unfold FindByToken at h
      rw [if_pos hc] at h
      injection h with h
      subst h
      exact hc
    · unfold FindByToken at h
      rw [if_neg hc] at h
      exact ih h

/-- C1: the total supply `sum(balances)` changes only through (a) the 1-bean
bonus when `GetOrCreateWallet` creates a previously absent wallet and (b) an
increase of exactly the harvest reward on successful completion; every
successful transfer, gift-link creation (escrow), redemption and
refund/deletion leaves the sum of all balances unchanged. -/
theorem ledger_conservation (s : BankState) (hwf : WF s) :
    (∀ u, totalBeans (GetOrCreateWallet s u).2 =
        totalBeans s + (if findAcc s.accounts u = none then 1 else 0)) ∧
    (∀ f t a force s1, Transfer s f t a force = .ok s1 →
        totalBeans s1 = totalBeans s) ∧
    (∀ f a m ei c nid now g s1, CreateGiftLink s f a m ei c nid now = .ok (g, s1) →
        totalBeans s1 = totalBeans s) ∧
    (∀ c u now s1, RedeemGiftLink s c u now = .ok s1 →
        totalBeans s1 = totalBeans s) ∧
    (∀ gid u s1, DeleteGiftLink s gid u = .ok s1 →
        totalBeans s1 = totalBeans s) ∧
    (∀ hid s1, CompleteHarvest s hid = .ok s1 →
        ∃ h, findHarvest s.harvests hid = some h ∧
          totalBeans s1 = totalBeans s + h.beanAmount) := by
  obtain ⟨hnu, -, -, -⟩ := hwf
  refine ⟨?_, ?_, ?_, ?_, ?_, ?_⟩
  · intro u
    unfold GetOrCreateWallet
    rcases hu : findAcc s.accounts u with _ | user
    · simp [totalBeans, sumBal_append]
    · simp [totalBeans]
  · intro f t a force s1 h
    obtain ⟨hpos, hne, htx⟩ := transfer_ok_inv h
    exact transferTx_totalBeans hnu hne htx
  · intro f a m ei c nid now g s1 h
    obtain ⟨fu, s2, hfu, hpos, hle, hTr, hg, hs1⟩ := createGiftLink_ok_inv h
    subst hs1
    exact (transferInTx_totalBeans hnu hTr : totalBeans s2 = totalBeans s)
  · intro c u now s1 h
    obtain ⟨g, s2, hg, hred, hact, hown, hTr, hs1⟩ := redeemGiftLink_ok_inv h
    subst hs1
    exact (transferInTx_totalBeans hnu hTr : totalBeans s2 = totalBeans s)
  · intro gid u s1 h
    obtain ⟨user, g, s2, huser, hgf, how, hcase, hs1⟩ := deleteGiftLink_ok_inv h
    subst hs1
    rcases hcase with ⟨h1, h2, hTr⟩ | ⟨hno, hs2⟩
    · exact (transferInTx_totalBeans hnu hTr : totalBeans s2 = totalBeans s)
    · subst hs2
      rfl
  · intro hid s1 h
    obtain ⟨harvest, au, acc, hh, hcomp, hau, hacc, hs1⟩ := completeHarvest_ok_inv h
    subst hs1
    refine ⟨harvest, hh, ?_⟩
    show sumBal (ensureSystem (setBal s.accounts au
      (acc.beanAmount + harvest.beanAmount))) = sumBal s.accounts + harvest.beanAmount
    rw [sumBal_ensureSystem, sumBal_setBal hnu hacc]
    ring

/-- Concrete instances of C1: creating a new wallet adds exactly 1 bean to the
supply, and a successful (force) transfer conserves it. -/
theorem ledger_conservation_witness :
    totalBeans (GetOrCreateWallet ⟨[⟨"alice", 5⟩], [], [], []⟩ "carol").2
      = totalBeans ⟨[⟨"alice", 5⟩], [], [], []⟩
        + (if findAcc ([⟨"alice", 5⟩] : List Account) "carol" = none then 1 else 0) ∧
    totalBeans (⟨[⟨"alice", 3⟩, ⟨"bob", 2⟩], [⟨"alice", "bob", 2, ""⟩], [], []⟩ : BankState)
      = totalBeans ⟨[⟨"alice", 5⟩], [], [], []⟩ := by
  have h := ledger_conservation ⟨[⟨"alice", 5⟩], [], [], []⟩ (by decide)
  exact ⟨h.1 "carol", h.2.1 "alice" "bob" 2 true
    ⟨[⟨"alice", 3⟩, ⟨"bob", 2⟩], [⟨"alice", "bob", 2, ""⟩], [], []⟩ (by decide)⟩

/-- C4: once a gift link has been redeemed, every subsequent redemption call
with the same code fails with `GiftLinkRedeemed`, and the failing call commits
no balance change and no gift-link change. -/
theorem no_double_redeem (s : BankState) (hwf : WF s) (code u : String)
    (now : Nat) (s1 : BankState) (h : RedeemGiftLink s code u now = .ok s1) :
    ∀ u2 now2, RedeemGiftLink s1 code u2 now2 = .error .giftLinkRedeemed ∧
      redeemRun s1 code u2 now2 = s1 := by
  obtain ⟨g, s2, hg, hred, hact, hown, hTr, hs1⟩ := redeemGiftLink_ok_inv h
  obtain ⟨hgl, hhv⟩ := transferInTx_other_tables hTr
  have hids : (s2.giftLinks.map GiftLink.id).Nodup := by
    rw [hgl]
    exact hwf.2.1
  have hf2 : findGiftByCode s2.giftLinks code = some g := by
    rw [hgl]
    exact hg
  have hfind := @findGiftByCode_saveGift s2.giftLinks code g (redeemedMark g u now)
    hids hf2 rfl rfl
  have hgl1 : s1.giftLinks = saveGift s2.giftLinks (redeemedMark g u now) := by
    rw [hs1]
  intro u2 now2
  have hT : RedeemGiftLink s1 code u2 now2 = .error .giftLinkRedeemed := by
    unfold RedeemGiftLink
    rw [hgl1, hfind]
    simp [redeemedMark]
  exact ⟨hT, by simp [redeemRun, hT]⟩

/-- The pre-redemption state of the C4 scenario: the Alice link of 5 beans held
in escrow by `system`, not yet redeemed. -/
def giftStateBefore : BankState :=
  ⟨[⟨"alice", 0⟩, ⟨"system", 5⟩], [],
   [⟨1, "c", "alice", 5, "", none, none, none, true⟩], []⟩

/-- The state after Bob redeems the link of `giftStateBefore`. -/
def giftStateAfter : BankState :=
  ⟨[⟨"alice", 0⟩, ⟨"system", 0⟩, ⟨"bob", 5⟩], [⟨"system", "bob", 5, ""⟩],
   [⟨1, "c", "alice", 5, "", none, some 0, some "bob", false⟩], []⟩

/-- Concrete instance of C4: after Bob redeems the link, the attempt by Dave
fails with `GiftLinkRedeemed` and commits nothing. -/
theorem no_double_redeem_witness :
    RedeemGiftLink giftStateAfter "c" "dave" 7 = .error .giftLinkRedeemed ∧
      redeemRun giftStateAfter "c" "dave" 7 = giftStateAfter :=
  no_double_redeem giftStateBefore (by decide) "c" "bob" 0 giftStateAfter
    (by decide) "dave" 7

/-- C5: completing an already-completed harvest fails with
`HarvestAlreadyCompleted`, credits no account and appends no ledger entry; a
successful completion credits the assigned account by exactly the reward,
appends exactly one ledger entry, sets the completed flag, and a repeat
completion then fails — the reward is never paid twice. -/
theorem harvest_completion_idempotent (s : BankState) (hid : Nat) :
    (∀ h, findHarvest s.harvests hid = some h → h.completed = true →
        CompleteHarvest s hid = .error .harvestAlreadyCompleted ∧
        completeHarvestRun s hid = s) ∧
    (∀ s1, CompleteHarvest s hid = .ok s1 →
        ∃ h au acc, findHarvest s.harvests hid = some h ∧
          h.assignedUser = some au ∧ findAcc s.accounts au = some acc ∧
          findAcc s1.accounts au
            = some { acc with beanAmount := acc.beanAmount + h.beanAmount } ∧
          s1.ledger = s.ledger ++
            [⟨"system", au, h.beanAmount, "Harvest completed: " ++ h.title⟩] ∧
          findHarvest s1.harvests hid = some { h with completed := true } ∧
          CompleteHarvest s1 hid = .error .harvestAlreadyCompleted) := by
  constructor
  · intro h hfound hdone
    have hT : CompleteHarvest s hid = .error .harvestAlreadyCompleted := by
      unfold CompleteHarvest
      rw [hfound]
      simp [hdone]
    exact ⟨hT, by simp [completeHarvestRun, hT]⟩
  · intro s1 h
    obtain ⟨harvest, au, acc, hh, hcomp, hau, hacc, hs1⟩ := completeHarvest_ok_inv h
    have hsave : findHarvest (saveHarvest s.harvests { harvest with completed := true }) hid
        = some { harvest with completed := true } :=
      findHarvest_saveHarvest hh rfl
    refine ⟨harvest, au, acc, hh, hau, hacc, ?_, ?_, ?_, ?_⟩
    · subst hs1
      show findAcc (ensureSystem (setBal s.accounts au
        (acc.beanAmount + harvest.beanAmount))) au = _
      apply findAcc_ensureSystem_of_some
      rw [findAcc_setBal_self, hacc]
      rfl
    · subst hs1
      rfl
    · subst hs1
      exact hsave
    · have hhv1 : s1.harvests
          = saveHarvest s.harvests { harvest with completed := true } := by
        rw [hs1]
      unfold CompleteHarvest
      rw [hhv1, hsave]
      simp

/-- The pre-completion state of the C5 scenario: a harvest of reward 50
assigned to Carol at balance 0, with no `system` account yet. -/
def harvestStateBefore : BankState :=
  ⟨[⟨"carol", 0⟩], [], [], [⟨1, "T", "D", 50, some "carol", false⟩]⟩

/-- The state after completing the harvest of `harvestStateBefore`. -/
def harvestStateAfter : BankState :=
  ⟨[⟨"carol", 50⟩, ⟨"system", 0⟩],
   [⟨"system", "carol", 50, "Harvest completed: T"⟩], [],
   [⟨1, "T", "D", 50, some "carol", true⟩]⟩

/-- Concrete instance of C5: completing the harvest pays Carol 50 once;
completing it again fails with `HarvestAlreadyCompleted` and changes nothing. -/
theorem harvest_completion_idempotent_witness :
    (∃ h au acc, findHarvest harvestStateBefore.harvests 1 = some h ∧
      h.assignedUser = some au ∧ findAcc harvestStateBefore.accounts au = some acc ∧
      findAcc harvestStateAfter.accounts au
        = some { acc with beanAmount := acc.beanAmount + h.beanAmount } ∧
      harvestStateAfter.ledger = harvestStateBefore.ledger ++
        [⟨"system", au, h.beanAmount, "Harvest completed: " ++ h.title⟩] ∧
      findHarvest harvestStateAfter.harvests 1 = some { h with completed := true } ∧
      CompleteHarvest harvestStateAfter 1 = .error .harvestAlreadyCompleted) ∧
    completeHarvestRun harvestStateAfter 1 = harvestStateAfter := by
  constructor
  · exact (harvest_completion_idempotent harvestStateBefore 1).2 harvestStateAfter
      (by decide)
  · exact ((harvest_completion_idempotent harvestStateAfter 1).1
      ⟨1, "T", "D", 50, some "carol", true⟩ (by decide) (by decide)).2

/-- C6 counterexample: the service-level administrative override
`UpdateBalance` writes the requested amount with no sign check — after
`UpdateBalance("alice", -3)` on a state with Alice at 5, the stored balance of Alice is -3, violating the nonnegativity claim. -/
theorem update_balance_negative_counterexample :
    UpdateBalance ⟨[⟨"alice", 5⟩], [], [], []⟩ "alice" (-3)
      = .ok ⟨[⟨"alice", -3⟩], [], [], []⟩ ∧ ¬ (0 : Int) ≤ -3 := by
  exact ⟨by decide, by decide⟩

/-- C6 (amended): balances stay nonnegative under wallet creation, transfers
and all gift-link operations unconditionally; under harvest completion when
the stored rewards are nonnegative (the harvest handler enforces reward ≥ 1 at
creation); and under the administrative `UpdateBalance` override only when the
requested amount is nonnegative (its only caller, the admin handler, enforces
this) — the service itself writes any requested amount, including negative
ones. -/
theorem balances_nonneg (s : BankState)
    (hnn : ∀ x ∈ s.accounts, 0 ≤ x.beanAmount) :
    (∀ u x, x ∈ (GetOrCreateWallet s u).2.accounts → 0 ≤ x.beanAmount) ∧
    (∀ f t a force s1, Transfer s f t a force = .ok s1 →
        ∀ x ∈ s1.accounts, 0 ≤ x.beanAmount) ∧
    (∀ f a m ei c nid now g s1, CreateGiftLink s f a m ei c nid now = .ok (g, s1) →
        ∀ x ∈ s1.accounts, 0 ≤ x.beanAmount) ∧
    (∀ c u now s1, RedeemGiftLink s c u now = .ok s1 →
        ∀ x ∈ s1.accounts, 0 ≤ x.beanAmount) ∧
    (∀ gid u s1, DeleteGiftLink s gid u = .ok s1 →
        ∀ x ∈ s1.accounts, 0 ≤ x.beanAmount) ∧
    (∀ hid s1, (∀ h ∈ s.harvests, 0 ≤ h.beanAmount) →
        CompleteHarvest s hid = .ok s1 → ∀ x ∈ s1.accounts, 0 ≤ x.beanAmount) ∧
    (∀ u b s1, 0 ≤ b → UpdateBalance s u b = .ok s1 →
        ∀ x ∈ s1.accounts, 0 ≤ x.beanAmount) := by
  refine ⟨?_, ?_, ?_, ?_, ?_, ?_, ?_⟩
  · intro u x
    unfold GetOrCreateWallet
    rcases hu : findAcc s.accounts u with _ | user
    · intro hx
      replace hx : x ∈ s.accounts ++ [(⟨u, 1⟩ : Account)] := hx
      rcases List.mem_append.mp hx with h1 | h1
      · exact hnn x h1
      · simp only [List.mem_singleton] at h1
        subst h1
        show (0 : Int) ≤ 1
        decide
    · intro hx
      exact hnn x hx
  · intro f t a force s1 h
    obtain ⟨hpos, hne, htx⟩ := transfer_ok_inv h
    exact transferTx_nonneg hnn hpos htx
  · intro f a m ei c nid now g s1 h
    obtain ⟨fu, s2, hfu, hpos, hle, hTr, hg, hs1⟩ := createGiftLink_ok_inv h
    subst hs1
    intro x hx
    exact transferInTx_nonneg hnn hTr x hx
  · intro c u now s1 h
    obtain ⟨g, s2, hg, hred, hact, hown, hTr, hs1⟩ := redeemGiftLink_ok_inv h
    subst hs1
    intro x hx
    exact transferInTx_nonneg hnn hTr x hx
  · intro gid u s1 h
    obtain ⟨user, g, s2, huser, hgf, how, hcase, hs1⟩ := deleteGiftLink_ok_inv h
    subst hs1
    rcases hcase with ⟨h1, h2, hTr⟩ | ⟨hno, hs2⟩
    · intro x hx
      exact transferInTx_nonneg hnn hTr x hx
    · subst hs2
      intro x hx
      exact hnn x hx
  · intro hid s1 hrew h
    obtain ⟨harvest, au, acc, hh, hcomp, hau, hacc, hs1⟩ := completeHarvest_ok_inv h
    subst hs1
    intro x hx
    replace hx : x ∈ ensureSystem (setBal s.accounts au
      (acc.beanAmount + harvest.beanAmount)) := hx
    rcases mem_ensureSystem hx with h1 | h1
    · rcases mem_setBal h1 with h2 | ⟨a1, ha1, he⟩
      · exact hnn x h2
      · subst he
        have hacc0 := hnn acc (findAcc_mem hacc).1
        have hrew0 := hrew harvest (findHarvest_mem hh).1
        show 0 ≤ acc.beanAmount + harvest.beanAmount
        omega
    · subst h1
      decide
  · intro u b s1 hb h
    unfold UpdateBalance at h
    split at h
    · exact absurd h (by simp)
    next user huser =>
      simp only [Except.ok.injEq] at h
      subst h
      intro x hx
      replace hx : x ∈ setBal s.accounts u b := hx
      rcases mem_setBal hx with h1 | ⟨a1, ha1, he⟩
      · exact hnn x h1
      · subst he
        exact hb

/-- Concrete instance of the amended C6: after Alice force-transfers 2 beans
to a fresh Bob wallet, the resulting balance of Bob is nonnegative. -/
theorem balances_nonneg_witness :
    (0 : Int) ≤ (⟨"bob", 2⟩ : Account).beanAmount :=
  (balances_nonneg ⟨[⟨"alice", 5⟩], [], [], []⟩ (by decide)).2.1 "alice" "bob" 2 true
    ⟨[⟨"alice", 3⟩, ⟨"bob", 2⟩], [⟨"alice", "bob", 2, ""⟩], [], []⟩ (by decide)
    ⟨"bob", 2⟩ (by decide)

/-- C7 counterexample: with a store record for "tok" that expired at time 5,
validating at time 10 (with a structurally valid signature) yields
`InvalidToken`, not the claimed `ExpiredToken` — the repository query filters
out expired records before the expiry branch can fire. -/
theorem validate_expired_counterexample :
    ValidateToken (fun str => if str = "tok" then some ⟨"alice"⟩ else none)
      [⟨"tok", "alice", 5⟩] "tok" 10 = .error .invalidToken ∧
    Err.invalidToken ≠ Err.expiredToken := by
  exact ⟨rfl, by decide⟩

/-- C7 (amended): validation fails with `InvalidToken` on any
signature/algorithm/parse failure, and also with `InvalidToken` (not
`ExpiredToken`) when no live store record matches — including when the only
matching records have expired, because the repository lookup filters
`expires_at > now`; the `ExpiredToken` branch is unreachable at any single
instant. -/
theorem validate_token_errors (p : String → Option TokenClaims)
    (tokens : List APIToken) (str : String) (now : Nat) :
    (p str = none → ValidateToken p tokens str now = .error .invalidToken) ∧
    (FindByToken tokens str now = none →
        ValidateToken p tokens str now = .error .invalidToken) ∧
    ((∀ tk ∈ tokens, tk.token = str → tk.expiresAt ≤ now) →
        ValidateToken p tokens str now = .error .invalidToken) ∧
    ValidateToken p tokens str now ≠ .error .expiredToken := by
  have h2 : FindByToken tokens str now = none →
      ValidateToken p tokens str now = .error .invalidToken := by
    intro hf
    unfold ValidateToken
    rcases hp : p str with _ | claims
    · rfl
    · rw [hf]
  refine ⟨?_, h2, ?_, ?_⟩
  · intro hp
    unfold ValidateToken
    rw [hp]
  · intro hall
    exact h2 (findByToken_none_of_expired hall)
  · intro hcontra
    unfold ValidateToken at hcontra
    split at hcontra
    · exact absurd hcontra (by simp)
    next claims hp =>
      split at hcontra
      · exact absurd hcontra (by simp)
      next dbToken hdb =>
        split at hcontra
        next hexp =>
          have := (findByToken_some hdb).2
          omega
        next hexp =>
          exact absurd hcontra (by simp)

/-- Concrete instance of the amended C7: the expired record for "tok" makes
validation fail with `InvalidToken`. -/
theorem validate_token_errors_witness :
    ValidateToken (fun str => if str = "tok" then some ⟨"alice"⟩ else none)
      [⟨"tok", "alice", 5⟩] "tok" 10 = .error .invalidToken := by
  refine (validate_token_errors (fun str => if str = "tok" then some ⟨"alice"⟩ else none)
    [⟨"tok", "alice", 5⟩] "tok" 10).2.2.1 ?_
  intro tk hm hts
  simp only [List.mem_singleton] at hm
  subst hm
  decide

theorem verify_after_sign (hm : String → String)
    (marshal : TransactionExport → String) (e0 : TransactionExport)
    (hne : ∀ x, hm x ≠ "") :
    VerifyExportData hm marshal { e0 with signature := signExport hm marshal e0 }
      = .ok true := by
  have hns : ({ e0 with signature := signExport hm marshal e0 }
      : TransactionExport).signature ≠ "" := hne _
  unfold VerifyExportData
  rw [if_neg hns]
  simp only [Except.ok.injEq, decide_eq_true_eq]
  rfl

/-- C8: for every existing user, verifying the snapshot just produced for that
user under the same signing key — `VerifyExportData` applied unmodified to the
result of `ExportTransactions` — yields valid = true.  The keyed HMAC is
abstract; its hex output is never the empty string. -/
theorem export_verify_roundtrip (hm : String → String)
    (marshal : TransactionExport → String) (s : BankState) (u : String)
    (now : Nat) (acc : Account) (hu : findAcc s.accounts u = some acc)
    (hne : ∀ x, hm x ≠ "") :
    ∃ e, ExportTransactions hm marshal s u now = .ok e ∧
      VerifyExportData hm marshal e = .ok true := by
  refine ⟨_, ?_, verify_after_sign hm marshal
    { username := acc.username, totalBeans := acc.beanAmount,
      transactions := historyFor s u, exportedAt := now, signature := "" } hne⟩
  unfold ExportTransactions
  rw [hu]

/-- Concrete instance of C8: a round trip on a one-account ledger verifies. -/
theorem export_verify_roundtrip_witness :
    ∃ e, ExportTransactions (fun _ => "h") (fun _ => "j")
        ⟨[⟨"alice", 5⟩], [⟨"alice", "bob", 2, ""⟩], [], []⟩ "alice" 0 = .ok e ∧
      VerifyExportData (fun _ => "h") (fun _ => "j") e = .ok true :=
  export_verify_roundtrip (fun _ => "h") (fun _ => "j")
    ⟨[⟨"alice", 5⟩], [⟨"alice", "bob", 2, ""⟩], [], []⟩ "alice" 0 ⟨"alice", 5⟩
    (by decide) (fun x => by show ("h" : String) ≠ ""; decide)

/-- C9 evidence: on a ledger holding Alice and Bob, `Transfer("bob", "alice",
10)` acquires the row locks in call-argument order — the sender "bob" first,
then "alice" — even though "alice" precedes "bob" lexicographically, so the
fixed lexicographic lock order the design prescribes is not what the code
does. -/
theorem transfer_locks_call_order :
    transferLocks ⟨[⟨"alice", 50⟩, ⟨"bob", 100⟩], [], [], []⟩ "bob" "alice" 10
      = ["bob", "alice"] ∧ ("alice" : String) < "bob" := by
  constructor
  · rfl
  · rw [String.lt_iff_toList_lt]
    decide

/-- C10: whenever the `system` account (or a force-created transfer recipient)
does not yet exist, the harvest-completion and escrow paths create it with
balance 0 — never with the 1-bean `getOrCreate` bonus — so its post-operation
balance is exactly the amount that flowed into it, and no escrow, redemption,
refund or harvest operation changes total supply by a creation bonus. -/
theorem system_account_no_bonus (s : BankState) (hwf : WF s) :
    (∀ hid s1, findAcc s.accounts "system" = none → CompleteHarvest s hid = .ok s1 →
        findAcc s1.accounts "system" = some ⟨"system", 0⟩ ∧
        ∃ h, findHarvest s.harvests hid = some h ∧
          totalBeans s1 = totalBeans s + h.beanAmount) ∧
    (∀ f t a s1, findAcc s.accounts t = none → Transfer s f t a true = .ok s1 →
        findAcc s1.accounts t = some ⟨t, a⟩ ∧ totalBeans s1 = totalBeans s) ∧
    (∀ f a m ei c nid now g s1, findAcc s.accounts "system" = none →
        CreateGiftLink s f a m ei c nid now = .ok (g, s1) →
        findAcc s1.accounts "system" = some ⟨"system", a⟩ ∧
        totalBeans s1 = totalBeans s) ∧
    (∀ c u now s1, RedeemGiftLink s c u now = .ok s1 →
        totalBeans s1 = totalBeans s) ∧
    (∀ gid u s1, DeleteGiftLink s gid u = .ok s1 →
        totalBeans s1 = totalBeans s) := by
  obtain ⟨hnu, -, -, -⟩ := hwf
  refine ⟨?_, ?_, ?_, ?_, ?_⟩
  · intro hid s1 hsys h
    obtain ⟨harvest, au, acc, hh, hcomp, hau, hacc, hs1⟩ := completeHarvest_ok_inv h
    have hau2 : au ≠ "system" := by
      intro he
      rw [he, hsys] at hacc
      cases hacc
    constructor
    · subst hs1
      show findAcc (ensureSystem (setBal s.accounts au
        (acc.beanAmount + harvest.beanAmount))) "system" = _
      apply findAcc_ensureSystem_create
      rw [findAcc_setBal_ne (Ne.symm hau2) _ _]
      exact hsys
    · subst hs1
      refine ⟨harvest, hh, ?_⟩
      show sumBal (ensureSystem (setBal s.accounts au
        (acc.beanAmount + harvest.beanAmount))) = sumBal s.accounts + harvest.beanAmount
      rw [sumBal_ensureSystem, sumBal_setBal hnu hacc]
      ring
  · intro f t a s1 ht h
    obtain ⟨hpos, hne, htx⟩ := transfer_ok_inv h
    exact ⟨transferTx_force_create hne ht htx, transferTx_totalBeans hnu hne htx⟩
  · intro f a m ei c nid now g s1 hsys h
    obtain ⟨fu, s2, hfu, hpos, hle, hTr, hg, hs1⟩ := createGiftLink_ok_inv h
    obtain ⟨hpos2, hne2, htx2⟩ := transferInTx_ok_inv hTr
    subst hs1
    constructor
    · show findAcc s2.accounts "system" = _
      exact transferTx_force_create hne2 hsys htx2
    · exact (transferTx_totalBeans hnu hne2 htx2 : totalBeans s2 = totalBeans s)
  · intro c u now s1 h
    obtain ⟨g, s2, hg, hred, hact, hown, hTr, hs1⟩ := redeemGiftLink_ok_inv h
    subst hs1
    exact (transferInTx_totalBeans hnu hTr : totalBeans s2 = totalBeans s)
  · intro gid u s1 h
    obtain ⟨user, g, s2, huser, hgf, how, hcase, hs1⟩ := deleteGiftLink_ok_inv h
    subst hs1
    rcases hcase with ⟨h1, h2, hTr⟩ | ⟨hno, hs2⟩
    · exact (transferInTx_totalBeans hnu hTr : totalBeans s2 = totalBeans s)
    · subst hs2
      rfl

/-- Concrete instances of C10: completing the Carol harvest on a ledger with no
`system` account creates it with balance 0, and force-transferring to a fresh
recipient leaves it holding exactly the transferred amount with supply
unchanged. -/
theorem system_account_no_bonus_witness :
    (findAcc harvestStateAfter.accounts "system" = some ⟨"system", 0⟩ ∧
      ∃ h, findHarvest harvestStateBefore.harvests 1 = some h ∧
        totalBeans harvestStateAfter = totalBeans harvestStateBefore + h.beanAmount) ∧
    (findAcc (⟨[⟨"alice", 3⟩, ⟨"bob", 2⟩], [⟨"alice", "bob", 2, ""⟩], [], []⟩
        : BankState).accounts "bob" = some ⟨"bob", 2⟩ ∧
      totalBeans (⟨[⟨"alice", 3⟩, ⟨"bob", 2⟩], [⟨"alice", "bob", 2, ""⟩], [], []⟩
        : BankState) = totalBeans ⟨[⟨"alice", 5⟩], [], [], []⟩) := by
  constructor
  · exact (system_account_no_bonus harvestStateBefore (by decide)).1 1
      harvestStateAfter (by decide) (by decide)
  · exact (system_account_no_bonus ⟨[⟨"alice", 5⟩], [], [], []⟩ (by decide)).2.1
      "alice" "bob" 2
      ⟨[⟨"alice", 3⟩, ⟨"bob", 2⟩], [⟨"alice", "bob", 2, ""⟩], [], []⟩
      (by decide) (by decide)
